import Mathlib

/-!
Verification of the OpenCowork Agent Runtime against its specification.

The IPC handlers of `src/electron/main.ts` and the renderer confirmation
logic of `src/src/components/useConfirmations.ts` are embedded directly.
The `AgentRuntime` class itself (`./agent/AgentRuntime`) and the
`ConfigStore` permission store are imported by `main.ts` but their sources
are not part of this repository snapshot; where a property depends on
them, the corresponding operation is modelled from the specification
(sections 3, 4.1, 4.2, 4.5 and 6) and marked as such in its doc comment.
-/

namespace OpenCowork

/-- Message role tag (spec section 3; Anthropic `MessageParam` roles). -/
inductive Role where
  | user
  | assistant
  | system
  deriving DecidableEq, Repr

/-- Content block of a Message: tagged union of text, image, tool
invocation and tool result (spec section 3). -/
inductive Block where
  | text (s : String)
  | image (mediaType : String) (data : String)
  | tool_use (callId : String) (name : String) (args : List (String × String))
  | tool_result (callId : String) (output : String) (isError : Bool)
  deriving DecidableEq, Repr

/-- One turn's content, tagged by role (spec section 3). -/
structure Message where
  role : Role
  content : List Block
  deriving DecidableEq, Repr

/-- Permission record persisted by the configuration store:
tool name plus a path pattern, where the pattern is the literal path or
the wildcard string (spec section 3; `main.ts` logs `path || '*'`). -/
structure PermissionRecord where
  tool : String
  pathPattern : String
  deriving DecidableEq, Repr

/-- Modelled from the spec: `ConfigStore.addPermission(tool, path?)`
(section 6) receives a new PermissionRecord `(tool, path-or-wildcard)`;
the `ConfigStore` source is not in the repository snapshot.  An absent
path is stored as the wildcard pattern, matching the `path || '*'`
convention visible in `src/electron/main.ts`. -/
def addPermission (perms : List PermissionRecord) (tool : String)
    (path : Option String) : List PermissionRecord :=
  perms ++ [⟨tool, path.getD "*"⟩]

/-- A pending human confirmation: correlation id, tool name and a
human-readable description (spec section 3). -/
structure PendingConfirmation where
  id : String
  tool : String
  description : String
  deriving DecidableEq, Repr

/-- Turn phase of the runtime: `idle` (no active turn) or `streaming`
(a request outstanding to the model client), the latter carrying the
History snapshot taken when the turn started (spec section 4.1). -/
inductive Phase where
  | idle
  | streaming (snapshot : List Message)
  deriving DecidableEq, Repr

/-- Modelled from the spec: in-memory state of the Agent Runtime
(sections 3 and 4.5) — canonical History, turn phase, and the set of
PendingConfirmations.  The `AgentRuntime` source is not in the
repository snapshot. -/
structure Runtime where
  history : List Message
  phase : Phase
  pending : List PendingConfirmation
  deriving DecidableEq, Repr

/-- Result of the `sendMessage` facade operation (spec section 4.5). -/
inductive SendResult where
  | ok
  | busy
  deriving DecidableEq, Repr

/-- Modelled from the spec: `sendMessage(content)` rejects with `Busy`
if a turn is already active; otherwise appends a user Message to History
and starts the Turn Loop, snapshotting the prior History for rollback
(spec sections 4.1 and 4.5).  The `AgentRuntime.processUserMessage`
source is not in the repository snapshot. -/
def sendMessage (st : Runtime) (c : List Block) : Runtime × SendResult :=
  match st.phase with
  | Phase.idle =>
      ({ st with
          history := st.history ++ [⟨Role.user, c⟩],
          phase := Phase.streaming st.history }, SendResult.ok)
  | Phase.streaming _ => (st, SendResult.busy)

/-- Modelled from the spec: `abort()` discards the partially built
assistant Message, restores the History snapshot taken at turn start,
destroys all PendingConfirmations and returns to `Idle`; with no active
turn it is a no-op (spec sections 4.1 and 3).  The `AgentRuntime.abort`
source is not in the repository snapshot. -/
def abort (st : Runtime) : Runtime :=
  match st.phase with
  | Phase.idle => st
  | Phase.streaming snap => { history := snap, phase := Phase.idle, pending := [] }

/-- The ids of the `tool_use` blocks of a block list, in order. -/
def toolUseIds : List Block → List String
  | [] => []
  | Block.tool_use i _ _ :: rest => i :: toolUseIds rest
  | _ :: rest => toolUseIds rest

/-- The ids of the `tool_result` blocks of a block list, in order. -/
def toolResultIds : List Block → List String
  | [] => []
  | Block.tool_result i _ _ :: rest => i :: toolResultIds rest
  | _ :: rest => toolResultIds rest

/-- Whether a block is a `tool_use` invocation. -/
def isToolUse : Block → Bool
  | Block.tool_use _ _ _ => true
  | _ => false

/-- The `tool_use` blocks of a model response, in order. -/
def toolUses (bs : List Block) : List Block := bs.filter isToolUse

/-- The `tool_result` block answering one `tool_use` block, produced by
the Tool Executor (or a synthetic denial): same invocation id, output
given by the executor function (spec sections 4.1 ToolPending and 4.3). -/
def resultFor (exec : String → String → String) : Block → Block
  | Block.tool_use i n _ => Block.tool_result i (exec i n) false
  | b => b

/-- One model response consumed by the Turn Loop while `Streaming`:
either a complete block list or a transport failure (spec section 6). -/
inductive ModelResponse where
  | success (blocks : List Block)
  | failure
  deriving DecidableEq, Repr

/-- Outcome of consuming one model response (spec section 4.1): the turn
is `done`, ended with an `error` rollback, or `continuing` with another
tool round-trip. -/
inductive RoundOutcome where
  | done
  | error
  | continuing
  deriving DecidableEq, Repr

/-- Modelled from the spec: the Turn Loop consuming one model response
(spec section 4.1).  With no `tool_use` block the assistant Message is
finalized and appended and the loop returns to `Idle`; with `tool_use`
blocks the assistant Message and a user Message holding one
`tool_result` per `tool_use` are appended and the loop issues the next
model call; a provider failure restores the snapshot (atomic per-turn
rollback).  The `AgentRuntime` source is not in the repository
snapshot. -/
def modelRespond (exec : String → String → String) (st : Runtime) :
    ModelResponse → Runtime × RoundOutcome
  | ModelResponse.failure =>
      match st.phase with
      | Phase.idle => (st, RoundOutcome.error)
      | Phase.streaming snap =>
          ({ st with history := snap, phase := Phase.idle }, RoundOutcome.error)
  | ModelResponse.success blocks =>
      match st.phase with
      | Phase.idle => (st, RoundOutcome.error)
      | Phase.streaming _ =>
          if (toolUses blocks).isEmpty then
            ({ st with
                history := st.history ++ [⟨Role.assistant, blocks⟩],
                phase := Phase.idle }, RoundOutcome.done)
          else
            ({ st with
                history := st.history ++
                  [⟨Role.assistant, blocks⟩,
                   ⟨Role.user, (toolUses blocks).map (resultFor exec)⟩] },
             RoundOutcome.continuing)

/-- Modelled from the spec: the Turn Loop driven over a script of model
responses; stops at the first terminal outcome, `continuing` meaning the
script ran out mid-turn (still `Streaming`). -/
def runTurn (exec : String → String → String) (st : Runtime) :
    List ModelResponse → Runtime × RoundOutcome
  | [] => (st, RoundOutcome.continuing)
  | r :: rs =>
      match modelRespond exec st r with
      | (st', RoundOutcome.continuing) => runTurn exec st' rs
      | (st', RoundOutcome.done) => (st', RoundOutcome.done)
      | (st', RoundOutcome.error) => (st', RoundOutcome.error)

/-- The History snapshots at which the Turn Loop issues a model call
while driving the given script. -/
def callTrace (exec : String → String → String) (st : Runtime) :
    List ModelResponse → List (List Message)
  | [] => []
  | r :: rs =>
      match st.phase with
      | Phase.idle => []
      | Phase.streaming _ =>
          st.history ::
            (match modelRespond exec st r with
             | (st', RoundOutcome.continuing) => callTrace exec st' rs
             | _ => [])

/-- Modelled from the spec: `confirmResponse` resolves exactly one
PendingConfirmation by its correlation id — the first one whose id
matches — and a call with an unknown id is a no-op (spec sections 4.2
and 4.5; `UnknownConfirmation` in section 7).  The
`AgentRuntime.handleConfirmResponse` source is not in the repository
snapshot. -/
def handleConfirmResponse (st : Runtime) (cid : String) : Runtime :=
  { st with pending := st.pending.eraseP (fun p => p.id == cid) }

/-- The `agent:confirm-response` IPC handler of `src/electron/main.ts`
(lines 152-158): persists a PermissionRecord exactly when `approved`,
`remember` and a tool name are all truthy — in JavaScript a missing
tool and the empty-string tool are both falsy — then forwards the
decision to the runtime.  Returns the updated permission store and
runtime state. -/
def confirmResponseHandler (perms : List PermissionRecord) (st : Runtime)
    (cid : String) (approved remember : Bool) (tool : Option String)
    (path : Option String) : List PermissionRecord × Runtime :=
  let perms' :=
    match tool with
    | some t =>
        if approved && remember && !t.isEmpty then addPermission perms t path
        else perms
    | none => perms
  (perms', handleConfirmResponse st cid)

/-- Result of a wholesale History replacement request (spec section 4.5). -/
inductive HistoryOpResult where
  | ok
  | rejectedActive
  deriving DecidableEq, Repr

/-- Modelled from the spec: `loadHistory(messages)` replaces the
canonical History wholesale and is forbidden while a turn is active
(spec section 4.5).  The `AgentRuntime.loadHistory` source is not in
the repository snapshot; `src/electron/main.ts` forwards
`session:load` to it. -/
def loadHistory (st : Runtime) (msgs : List Message) : Runtime × HistoryOpResult :=
  match st.phase with
  | Phase.idle => ({ st with history := msgs }, HistoryOpResult.ok)
  | Phase.streaming _ => (st, HistoryOpResult.rejectedActive)

/-- Modelled from the spec: `clearHistory()` replaces the History with
the empty sequence under the same guard (spec section 4.5);
`src/electron/main.ts` forwards `agent:new-session` to it. -/
def clearHistory (st : Runtime) : Runtime × HistoryOpResult :=
  loadHistory st []

/-- Classification a tool invocation receives from the Permission Gate
(spec section 4.2). -/
inductive Classification where
  | allow
  | deny
  | ask
  deriving DecidableEq, Repr

/-- Modelled from the spec: the Permission Gate decision algorithm
(spec section 4.2): side-effect-free tools are allowed unconditionally;
otherwise an exact (tool, normalized-path) PermissionRecord match, then
a (tool, wildcard) match, each yields `allow`; otherwise `ask`.  The
gate's source (inside `AgentRuntime`) is not in the repository
snapshot. -/
def classify (sideEffectFree : List String) (perms : List PermissionRecord)
    (tool path : String) : Classification :=
  if tool ∈ sideEffectFree then Classification.allow
  else if perms.any (fun r => r.tool == tool && r.pathPattern == path) then
    Classification.allow
  else if perms.any (fun r => r.tool == tool && r.pathPattern == "*") then
    Classification.allow
  else Classification.ask

/-- Modelled from the spec: the `confirm-request` events produced for
one tool invocation — one PendingConfirmation when the gate classifies
`ask`, none otherwise (spec sections 4.2 and 4.4). -/
def confirmRequests (sideEffectFree : List String)
    (perms : List PermissionRecord) (tool path cid desc : String) :
    List PendingConfirmation :=
  match classify sideEffectFree perms tool path with
  | Classification.ask => [⟨cid, tool, desc⟩]
  | _ => []

/-- Adjacent-message obligation of the History invariant (spec
section 3): an assistant Message containing `tool_use` blocks must be
immediately followed by a user-role Message whose `tool_result` ids are
exactly its `tool_use` ids, in order. -/
def msgOk (m n : Message) : Prop :=
  m.role = Role.assistant → toolUseIds m.content ≠ [] →
    n.role = Role.user ∧ toolResultIds n.content = toolUseIds m.content

instance : DecidableRel msgOk := fun m n => by
  unfold msgOk; exact inferInstance

/-- Final-message obligation of the History invariant: the last Message
must not carry unanswered `tool_use` blocks. -/
def openOk (m : Message) : Prop :=
  m.role = Role.assistant → toolUseIds m.content = []

instance (m : Message) : Decidable (openOk m) := by
  unfold openOk; exact inferInstance

/-- The History invariant of spec section 3: every `tool_use` block of
an assistant Message has exactly one corresponding `tool_result` block
in the immediately following user-role Message. -/
def paired (h : List Message) : Prop :=
  List.Chain' msgOk h ∧ ∀ m ∈ h.getLast?, openOk m

instance (h : List Message) : Decidable (paired h) := by
  unfold paired; exact inferInstance

/-- The History is nonempty and ends with a user-role Message. -/
def endsUser (h : List Message) : Prop :=
  ∃ m, h.getLast? = some m ∧ m.role = Role.user

/-- The `agent:authorize-folder` IPC handler of `src/electron/main.ts`
(lines 207-214): appends the folder to `authorizedFolders` only when it
is not already present. -/
def authorizeFolder (folders : List String) (folderPath : String) : List String :=
  if folderPath ∈ folders then folders else folders ++ [folderPath]

/-- The `agent:set-working-dir` IPC handler of `src/electron/main.ts`
(lines 235-241): puts the folder first and keeps every other previously
authorized folder, in order. -/
def setWorkingDir (folders : List String) (folderPath : String) : List String :=
  folderPath :: folders.filter (fun f => f != folderPath)

/-- The Tool Executor results produced for a response answer exactly the
response's `tool_use` ids, in order. -/
theorem toolResultIds_map_resultFor (exec : String → String → String)
    (bs : List Block) :
    toolResultIds ((toolUses bs).map (resultFor exec)) = toolUseIds bs := by
  induction bs with
  | nil => rfl
  | cons b rest ih =>
      cases b <;>
        simpa [toolUses, isToolUse, List.filter_cons, resultFor,
          toolUseIds, toolResultIds] using ih

/-- A response with no `tool_use` block has no `tool_use` ids. -/
theorem toolUseIds_eq_nil (bs : List Block) (h : toolUses bs = []) :
    toolUseIds bs = [] := by
  induction bs with
  | nil => rfl
  | cons b rest ih =>
      cases b <;> simp_all [toolUses, isToolUse, List.filter_cons, toolUseIds]

/-- Appending a user Message keeps the History invariant and leaves the
History ending in a user Message. -/
theorem paired_append_user (h : List Message) (c : List Block)
    (hp : paired h) :
    paired (h ++ [⟨Role.user, c⟩]) ∧ endsUser (h ++ [⟨Role.user, c⟩]) := by
  obtain ⟨hc, hl⟩ := hp
  refine ⟨⟨List.chain'_append.2 ⟨hc, List.chain'_singleton _, ?_⟩, ?_⟩, ?_⟩
  · intro x hx y hy
    simp only [List.head?_cons, Option.mem_def, Option.some.injEq] at hy
    subst hy
    intro hass hne
    exact absurd (hl x hx hass) hne
  · intro m hm
    rw [List.getLast?_concat] at hm
    simp only [Option.mem_def, Option.some.injEq] at hm
    subst hm
    intro hass
    simp at hass
  · exact ⟨⟨Role.user, c⟩, List.getLast?_concat h, rfl⟩

/-- Appending a final assistant Message with no `tool_use` block keeps
the History invariant. -/
theorem paired_append_assistant_final (h : List Message) (blocks : List Block)
    (hp : paired h) (hu : endsUser h) (hids : toolUseIds blocks = []) :
    paired (h ++ [⟨Role.assistant, blocks⟩]) := by
  obtain ⟨hc, _⟩ := hp
  obtain ⟨m, hm, hrole⟩ := hu
  refine ⟨List.chain'_append.2 ⟨hc, List.chain'_singleton _, ?_⟩, ?_⟩
  · intro x hx y hy
    simp only [List.head?_cons, Option.mem_def, Option.some.injEq] at hy
    subst hy
    rw [Option.mem_def, hm, Option.some.injEq] at hx
    subst hx
    intro hass
    rw [hrole] at hass
    simp at hass
  · intro m' hm'
    rw [List.getLast?_concat] at hm'
    simp only [Option.mem_def, Option.some.injEq] at hm'
    subst hm'
    intro _
    exact hids

/-- Appending one tool round-trip — the assistant Message and the user
Message carrying its matching `tool_result` blocks — keeps the History
invariant and leaves the History ending in a user Message. -/
theorem paired_append_tool_round (h : List Message)
    (blocks results : List Block) (hp : paired h) (hu : endsUser h)
    (hres : toolResultIds results = toolUseIds blocks) :
    paired (h ++ [⟨Role.assistant, blocks⟩, ⟨Role.user, results⟩]) ∧
    endsUser (h ++ [⟨Role.assistant, blocks⟩, ⟨Role.user, results⟩]) := by
  obtain ⟨hc, _⟩ := hp
  obtain ⟨m, hm, hrole⟩ := hu
  refine ⟨⟨List.chain'_append.2 ⟨hc, ?_, ?_⟩, ?_⟩, ?_⟩
  · exact List.chain'_pair.2 (fun _ _ => ⟨rfl, hres⟩)
  · intro x hx y hy
    simp only [List.head?_cons, Option.mem_def, Option.some.injEq] at hy
    subst hy
    rw [Option.mem_def, hm, Option.some.injEq] at hx
    subst hx
    intro hass
    rw [hrole] at hass
    simp at hass
  · intro m' hm'
    simp only [List.getLast?_append, List.getLast?_cons_cons,
      List.getLast?_singleton, Option.or_some, Option.mem_def,
      Option.some.injEq] at hm'
    subst hm'
    intro hass
    simp at hass
  · refine ⟨⟨Role.user, results⟩, ?_, rfl⟩
    simp [List.getLast?_append]

/-- `sendMessage` on an idle runtime appends the user Message and
snapshots the prior History. -/
theorem sendMessage_idle (st : Runtime) (c : List Block)
    (h : st.phase = Phase.idle) :
    sendMessage st c =
      ({ history := st.history ++ [⟨Role.user, c⟩],
         phase := Phase.streaming st.history,
         pending := st.pending }, SendResult.ok) := by
  simp [sendMessage, h]

/-- A provider failure while streaming restores the snapshot. -/
theorem modelRespond_failure (exec : String → String → String)
    (st : Runtime) (snap : List Message)
    (h : st.phase = Phase.streaming snap) :
    modelRespond exec st ModelResponse.failure =
      ({ history := snap, phase := Phase.idle, pending := st.pending },
       RoundOutcome.error) := by
  simp [modelRespond, h]

/-- A response with no `tool_use` block finalizes the assistant Message
and completes the turn. -/
theorem modelRespond_done (exec : String → String → String)
    (st : Runtime) (snap : List Message) (blocks : List Block)
    (h : st.phase = Phase.streaming snap) (hemp : toolUses blocks = []) :
    modelRespond exec st (ModelResponse.success blocks) =
      ({ history := st.history ++ [⟨Role.assistant, blocks⟩],
         phase := Phase.idle,
         pending := st.pending }, RoundOutcome.done) := by
  simp [modelRespond, h, List.isEmpty_iff, hemp]

/-- A response with `tool_use` blocks appends the assistant Message and
its matching `tool_result` user Message, then keeps streaming. -/
theorem modelRespond_continuing (exec : String → String → String)
    (st : Runtime) (snap : List Message) (blocks : List Block)
    (h : st.phase = Phase.streaming snap) (hemp : toolUses blocks ≠ []) :
    modelRespond exec st (ModelResponse.success blocks) =
      ({ history := st.history ++
          [⟨Role.assistant, blocks⟩,
           ⟨Role.user, (toolUses blocks).map (resultFor exec)⟩],
         phase := Phase.streaming snap,
         pending := st.pending },
       RoundOutcome.continuing) := by
  simp [modelRespond, h, List.isEmpty_iff, hemp]

/-- Aborting a streaming runtime restores the snapshot and destroys all
PendingConfirmations. -/
theorem abort_streaming (st : Runtime) (snap : List Message)
    (h : st.phase = Phase.streaming snap) :
    abort st = { history := snap, phase := Phase.idle, pending := [] } := by
  simp [abort, h]

/-- While the Turn Loop keeps streaming, the snapshot it carries is the
one taken at turn start. -/
theorem runTurn_snapshot (exec : String → String → String) :
    ∀ (rs : List ModelResponse) (st : Runtime) (s₀ snap : List Message),
      st.phase = Phase.streaming s₀ →
      ((runTurn exec st rs).1).phase = Phase.streaming snap → snap = s₀ := by
  intro rs
  induction rs with
  | nil =>
      intro st s₀ snap h0 hs
      simp [runTurn, h0] at hs
      exact hs.symm
  | cons r rs ih =>
      intro st s₀ snap h0 hs
      cases r with
      | failure =>
          simp only [runTurn, modelRespond_failure exec st s₀ h0] at hs
          simp at hs
      | success blocks =>
          by_cases hemp : toolUses blocks = []
          · simp only [runTurn,
              modelRespond_done exec st s₀ blocks h0 hemp] at hs
            simp at hs
          · simp only [runTurn,
              modelRespond_continuing exec st s₀ blocks h0 hemp] at hs
            exact ih _ s₀ snap rfl hs

/-- The Turn Loop preserves the History invariant: it holds at every
model call and, for a normally completing turn, in the final History. -/
theorem runTurn_paired (exec : String → String → String) :
    ∀ (rs : List ModelResponse) (st : Runtime) (snap : List Message),
      st.phase = Phase.streaming snap → paired st.history →
      endsUser st.history →
      (∀ h ∈ callTrace exec st rs, paired h) ∧
      ((runTurn exec st rs).2 = RoundOutcome.done →
        paired (runTurn exec st rs).1.history) := by
  intro rs
  induction rs with
  | nil =>
      intro st snap h0 hp hu
      constructor
      · intro h hh
        simp [callTrace] at hh
      · intro hd
        simp [runTurn] at hd
  | cons r rs ih =>
      intro st snap h0 hp hu
      cases r with
      | failure =>
          constructor
          · intro h hh
            simp only [callTrace, h0, modelRespond_failure exec st snap h0] at hh
            simp at hh
            subst hh
            exact hp
          · intro hd
            simp only [runTurn, modelRespond_failure exec st snap h0] at hd
            simp at hd
      | success blocks =>
          by_cases hemp : toolUses blocks = []
          · have hmr := modelRespond_done exec st snap blocks h0 hemp
            constructor
            · intro h hh
              simp only [callTrace, h0, hmr] at hh
              simp at hh
              subst hh
              exact hp
            · intro _
              simp only [runTurn, hmr]
              exact paired_append_assistant_final st.history blocks hp hu
                (toolUseIds_eq_nil blocks hemp)
          · have hmr := modelRespond_continuing exec st snap blocks h0 hemp
            have hpair := paired_append_tool_round st.history blocks
              ((toolUses blocks).map (resultFor exec)) hp hu
              (toolResultIds_map_resultFor exec blocks)
            have ih' := ih
              { history := st.history ++
                  [⟨Role.assistant, blocks⟩,
                   ⟨Role.user, (toolUses blocks).map (resultFor exec)⟩],
                phase := Phase.streaming snap,
                pending := st.pending }
              snap rfl hpair.1 hpair.2
            constructor
            · intro h hh
              simp only [callTrace, h0, hmr] at hh
              simp at hh
              rcases hh with hh | hh
              · subst hh
                exact hp
              · exact ih'.1 h hh
            · intro hd
              simp only [runTurn, hmr] at hd ⊢
              exact ih'.2 hd

/-- An idle runtime with empty History and no pending confirmations,
used as a concrete test state. -/
def st₀ : Runtime := { history := [], phase := Phase.idle, pending := [] }

/-- A runtime with an in-flight turn (streaming over an empty
snapshot), used as a concrete test state. -/
def stS : Runtime := { history := [⟨Role.user, [Block.text "hi"]⟩],
                       phase := Phase.streaming [], pending := [] }

/-- A fixed Tool Executor output function for concrete runs. -/
def exec₀ : String → String → String := fun _ _ => "ok"

/-- C1: for every turn aborted while in the `Streaming` state, no
partial assistant Message is appended: the History after `abort()`
completes equals the History immediately before the aborted
`sendMessage` call. -/
theorem abort_during_streaming_restores_history
    (exec : String → String → String) (st : Runtime) (c : List Block)
    (rs : List ModelResponse) (snap : List Message)
    (h0 : st.phase = Phase.idle)
    (hs : ((runTurn exec (sendMessage st c).1 rs).1).phase =
      Phase.streaming snap) :
    (abort (runTurn exec (sendMessage st c).1 rs).1).history = st.history := by
  have h1 : ((sendMessage st c).1).phase = Phase.streaming st.history := by
    rw [sendMessage_idle st c h0]
  have hsnap := runTurn_snapshot exec rs (sendMessage st c).1 st.history snap h1 hs
  rw [abort_streaming _ snap hs]
  exact hsnap

/-- Witness for C1: aborting right after the turn started on the empty
runtime leaves the History empty. -/
theorem abort_during_streaming_restores_history_witness :
    (abort (runTurn exec₀ (sendMessage st₀ [Block.text "hi"]).1 []).1).history
      = st₀.history :=
  abort_during_streaming_restores_history exec₀ st₀ [Block.text "hi"] [] []
    rfl rfl

/-- C2: for a turn that completes normally, every `tool_use` block of an
assistant Message has exactly one corresponding `tool_result` block in
the immediately following user Message, and the Turn Loop never issues a
model call while that correspondence is violated. -/
theorem turn_loop_tool_pairing
    (exec : String → String → String) (st : Runtime) (c : List Block)
    (rs : List ModelResponse)
    (h0 : st.phase = Phase.idle) (hp : paired st.history) :
    (∀ h ∈ callTrace exec (sendMessage st c).1 rs, paired h) ∧
    ((runTurn exec (sendMessage st c).1 rs).2 = RoundOutcome.done →
      paired (runTurn exec (sendMessage st c).1 rs).1.history) := by
  have hap := paired_append_user st.history c hp
  rw [sendMessage_idle st c h0]
  exact runTurn_paired exec rs _ st.history rfl hap.1 hap.2

/-- Witness for C2: a turn with one tool round-trip followed by a final
text answer keeps the pairing invariant throughout. -/
theorem turn_loop_tool_pairing_witness :
    (∀ h ∈ callTrace exec₀ (sendMessage st₀ [Block.text "hi"]).1
        [ModelResponse.success [Block.tool_use "c1" "list_dir" [("path", ".")]],
         ModelResponse.success [Block.text "done"]], paired h) ∧
    ((runTurn exec₀ (sendMessage st₀ [Block.text "hi"]).1
        [ModelResponse.success [Block.tool_use "c1" "list_dir" [("path", ".")]],
         ModelResponse.success [Block.text "done"]]).2 = RoundOutcome.done →
      paired (runTurn exec₀ (sendMessage st₀ [Block.text "hi"]).1
        [ModelResponse.success [Block.tool_use "c1" "list_dir" [("path", ".")]],
         ModelResponse.success [Block.text "done"]]).1.history) :=
  turn_loop_tool_pairing exec₀ st₀ [Block.text "hi"] _ rfl (by decide)

/-- C4: `sendMessage` while a turn is active is rejected with `Busy`,
leaving History and all turn state untouched; after `abort()` a
`sendMessage` succeeds and appends the user Message to History. -/
theorem send_message_busy_then_abort_send
    (st : Runtime) (c c' : List Block) (h : st.phase ≠ Phase.idle) :
    sendMessage st c = (st, SendResult.busy) ∧
    (sendMessage (abort st) c').2 = SendResult.ok ∧
    (sendMessage (abort st) c').1.history =
      (abort st).history ++ [⟨Role.user, c'⟩] := by
  cases hp : st.phase with
  | idle => exact absurd hp h
  | streaming snap =>
      refine ⟨by simp [sendMessage, hp], ?_, ?_⟩
      · rw [abort_streaming st snap hp]
        simp [sendMessage]
      · rw [abort_streaming st snap hp]
        simp [sendMessage]

/-- Witness for C4 on a runtime with an in-flight turn. -/
theorem send_message_busy_then_abort_send_witness :
    sendMessage stS [Block.text "a"] = (stS, SendResult.busy) ∧
    (sendMessage (abort stS) [Block.text "b"]).2 = SendResult.ok ∧
    (sendMessage (abort stS) [Block.text "b"]).1.history =
      (abort stS).history ++ [⟨Role.user, [Block.text "b"]⟩] :=
  send_message_busy_then_abort_send stS [Block.text "a"] [Block.text "b"]
    (by decide)

/-- C7: `confirmResponse` resolves at most one PendingConfirmation (the
first whose correlation id matches), leaves History and phase untouched,
and is a no-op on an unknown id. -/
theorem confirm_response_resolves_at_most_one (st : Runtime) (cid : String) :
    (handleConfirmResponse st cid).history = st.history ∧
    (handleConfirmResponse st cid).phase = st.phase ∧
    ((∀ p ∈ st.pending, p.id ≠ cid) → handleConfirmResponse st cid = st) ∧
    (∀ p ∈ st.pending, p.id = cid →
      ∃ q l₁ l₂, q.id = cid ∧ (∀ x ∈ l₁, x.id ≠ cid) ∧
        st.pending = l₁ ++ q :: l₂ ∧
        (handleConfirmResponse st cid).pending = l₁ ++ l₂) := by
  refine ⟨rfl, rfl, ?_, ?_⟩
  · intro hnone
    have he : st.pending.eraseP (fun p => p.id == cid) = st.pending :=
      List.eraseP_of_forall_not (fun a ha => by simpa using hnone a ha)
    unfold handleConfirmResponse
    rw [he]
  · intro p hp hid
    obtain ⟨q, l₁, l₂, hql, hq, hsplit, herase⟩ :=
      List.exists_of_eraseP (p := fun p => p.id == cid) hp (by simpa using hid)
    exact ⟨q, l₁, l₂, by simpa using hq, fun x hx => by simpa using hql x hx,
      hsplit, by simpa [handleConfirmResponse] using herase⟩

/-- Witness for C7: an unknown id on a runtime with one pending
confirmation changes nothing. -/
theorem confirm_response_resolves_at_most_one_witness :
    (handleConfirmResponse
        { st₀ with pending := [⟨"c1", "write_file", "write"⟩] } "zz").history
      = ({ st₀ with pending := [⟨"c1", "write_file", "write"⟩] } :
          Runtime).history ∧
    (handleConfirmResponse
        { st₀ with pending := [⟨"c1", "write_file", "write"⟩] } "zz").phase
      = ({ st₀ with pending := [⟨"c1", "write_file", "write"⟩] } :
          Runtime).phase ∧
    ((∀ p ∈ ({ st₀ with pending := [⟨"c1", "write_file", "write"⟩] } :
          Runtime).pending, p.id ≠ "zz") →
      handleConfirmResponse
          { st₀ with pending := [⟨"c1", "write_file", "write"⟩] } "zz"
        = { st₀ with pending := [⟨"c1", "write_file", "write"⟩] }) ∧
    (∀ p ∈ ({ st₀ with pending := [⟨"c1", "write_file", "write"⟩] } :
        Runtime).pending, p.id = "zz" →
      ∃ q l₁ l₂, q.id = "zz" ∧ (∀ x ∈ l₁, x.id ≠ "zz") ∧
        ({ st₀ with pending := [⟨"c1", "write_file", "write"⟩] } :
          Runtime).pending = l₁ ++ q :: l₂ ∧
        (handleConfirmResponse
            { st₀ with pending := [⟨"c1", "write_file", "write"⟩] } "zz").pending
          = l₁ ++ l₂) :=
  confirm_response_resolves_at_most_one
    { st₀ with pending := [⟨"c1", "write_file", "write"⟩] } "zz"

/-- C8: `loadHistory` and `clearHistory` are rejected while a turn is
active (History not replaced) and replace the History wholesale — with
the given messages, or the empty sequence — when no turn is active. -/
theorem load_clear_history_guarded (st : Runtime) (msgs : List Message) :
    (st.phase ≠ Phase.idle →
      loadHistory st msgs = (st, HistoryOpResult.rejectedActive) ∧
      clearHistory st = (st, HistoryOpResult.rejectedActive)) ∧
    (st.phase = Phase.idle →
      loadHistory st msgs =
        ({ st with history := msgs }, HistoryOpResult.ok) ∧
      clearHistory st = ({ st with history := [] }, HistoryOpResult.ok)) := by
  cases hp : st.phase with
  | idle =>
      exact ⟨fun h => absurd rfl h,
        fun _ => ⟨by simp [loadHistory, hp], by simp [clearHistory, loadHistory, hp]⟩⟩
  | streaming snap =>
      exact ⟨fun _ => ⟨by simp [loadHistory, hp], by simp [clearHistory, loadHistory, hp]⟩,
        fun h => by simp at h⟩

/-- Witness for C8 on an idle runtime: the History is replaced. -/
theorem load_clear_history_guarded_witness :
    (st₀.phase ≠ Phase.idle →
      loadHistory st₀ [⟨Role.user, [Block.text "m"]⟩] =
        (st₀, HistoryOpResult.rejectedActive) ∧
      clearHistory st₀ = (st₀, HistoryOpResult.rejectedActive)) ∧
    (st₀.phase = Phase.idle →
      loadHistory st₀ [⟨Role.user, [Block.text "m"]⟩] =
        ({ st₀ with history := [⟨Role.user, [Block.text "m"]⟩] },
         HistoryOpResult.ok) ∧
      clearHistory st₀ = ({ st₀ with history := [] }, HistoryOpResult.ok)) :=
  load_clear_history_guarded st₀ [⟨Role.user, [Block.text "m"]⟩]

/-- C3: the confirm-response handler writes a new PermissionRecord to
the configuration store iff `approved`, `remember` and a tool name are
all supplied truthy — a missing tool and the JS-falsy empty-string tool
both suppress persistence; in particular a denial never persists a
record, whatever the remember flag says. -/
theorem confirm_response_persists_iff
    (perms : List PermissionRecord) (st : Runtime) (cid : String)
    (approved remember : Bool) (tool path : Option String) :
    ((confirmResponseHandler perms st cid approved remember tool path).1 ≠ perms
      ↔ approved = true ∧ remember = true ∧
        ∃ tn, tool = some tn ∧ tn ≠ "") ∧
    (∀ tn, tool = some tn → tn ≠ "" → approved = true → remember = true →
      (confirmResponseHandler perms st cid approved remember tool path).1 =
        perms ++ [⟨tn, path.getD "*"⟩]) ∧
    (approved = false →
      (confirmResponseHandler perms st cid approved remember tool path).1
        = perms) := by
  cases tool with
  | none =>
      cases approved <;> cases remember <;>
        simp [confirmResponseHandler, addPermission]
  | some t =>
      cases approved <;> cases remember <;>
        by_cases ht : t = "" <;>
          simp [confirmResponseHandler, addPermission, String.isEmpty_iff, ht]

/-- Witness for C3: a denial with remember set does not enlarge the
store; an approval with remember and a real tool name does; an approval
with remember but the falsy empty tool name does not. -/
theorem confirm_response_persists_iff_witness :
    (confirmResponseHandler [] st₀ "c1" false true (some "write_file")
        (some "/tmp/x")).1 = [] ∧
    (confirmResponseHandler [] st₀ "c1" true true (some "write_file")
        (some "/tmp/x")).1 = [⟨"write_file", "/tmp/x"⟩] ∧
    (confirmResponseHandler [] st₀ "c1" true true (some "")
        (some "/tmp/x")).1 = [] :=
  ⟨(confirm_response_persists_iff [] st₀ "c1" false true (some "write_file")
      (some "/tmp/x")).2.2 rfl,
   (confirm_response_persists_iff [] st₀ "c1" true true (some "write_file")
      (some "/tmp/x")).2.1 "write_file" rfl (by decide) rfl rfl,
   not_not.mp (fun hne =>
     match (confirm_response_persists_iff [] st₀ "c1" true true (some "")
         (some "/tmp/x")).1.mp hne with
     | ⟨_, _, tn, htn, hne'⟩ => hne' (Option.some.inj htn).symm)⟩

/-- A PermissionRecord match — exact path or wildcard — makes the gate
classify the invocation `allow`. -/
theorem classify_allow_of_match
    (sideEffectFree : List String) (perms : List PermissionRecord)
    (tool path : String)
    (hmatch : ∃ r ∈ perms, r.tool = tool ∧
      (r.pathPattern = path ∨ r.pathPattern = "*")) :
    classify sideEffectFree perms tool path = Classification.allow := by
  obtain ⟨r, hr, hrt, hrp⟩ := hmatch
  by_cases hse : tool ∈ sideEffectFree
  · simp [classify, hse]
  · rcases hrp with hrp | hrp
    · have h2 : perms.any
          (fun r => r.tool == tool && r.pathPattern == path) = true :=
        List.any_eq_true.2 ⟨r, hr, by simp [hrt, hrp]⟩
      simp [classify, hse, h2]
    · have h3 : perms.any
          (fun r => r.tool == tool && r.pathPattern == "*") = true :=
        List.any_eq_true.2 ⟨r, hr, by simp [hrt, hrp]⟩
      by_cases h2 : perms.any
          (fun r => r.tool == tool && r.pathPattern == path) = true
      · simp [classify, hse, h2]
      · simp [classify, hse, h2, h3]

/-- C5: a tool invocation with an existing allow-classified
PermissionRecord — exact path match or wildcard — never produces a
`confirm-request` event. -/
theorem allowed_record_never_asks
    (sideEffectFree : List String) (perms : List PermissionRecord)
    (tool path cid desc : String)
    (hmatch : ∃ r ∈ perms, r.tool = tool ∧
      (r.pathPattern = path ∨ r.pathPattern = "*")) :
    confirmRequests sideEffectFree perms tool path cid desc = [] := by
  have hcl := classify_allow_of_match sideEffectFree perms tool path hmatch
  simp [confirmRequests, hcl]

/-- Witness for C5: a wildcard record for `write_file` suppresses the
confirm-request for a `write_file` invocation. -/
theorem allowed_record_never_asks_witness :
    confirmRequests [] [⟨"write_file", "*"⟩] "write_file" "/tmp/x" "c1" "w"
      = [] :=
  allowed_record_never_asks [] [⟨"write_file", "*"⟩] "write_file" "/tmp/x"
    "c1" "w" ⟨⟨"write_file", "*"⟩, by simp, rfl, Or.inr rfl⟩

/-- C6: approving with remember=true for (tool, path) makes the same
invocation in a later turn classify `allow` — no confirmation step —
while approving the same invocation without remember leaves it
producing a confirm-request again. -/
theorem remember_controls_future_confirmation
    (sideEffectFree : List String) (perms : List PermissionRecord)
    (st : Runtime) (cid cid' desc : String) (tool path : String)
    (htool : tool ≠ "")
    (hask : classify sideEffectFree perms tool path = Classification.ask) :
    confirmRequests sideEffectFree
        (confirmResponseHandler perms st cid true true
          (some tool) (some path)).1
        tool path cid' desc = [] ∧
    confirmRequests sideEffectFree
        (confirmResponseHandler perms st cid true false
          (some tool) (some path)).1
        tool path cid' desc = [⟨cid', tool, desc⟩] := by
  constructor
  · have hpe : (confirmResponseHandler perms st cid true true
        (some tool) (some path)).1 = perms ++ [⟨tool, path⟩] := by
      simp [confirmResponseHandler, addPermission, String.isEmpty_iff, htool]
    rw [hpe]
    have hcl := classify_allow_of_match sideEffectFree (perms ++ [⟨tool, path⟩])
      tool path ⟨⟨tool, path⟩, by simp, rfl, Or.inl rfl⟩
    simp [confirmRequests, hcl]
  · have hpe : (confirmResponseHandler perms st cid true false
        (some tool) (some path)).1 = perms := by
      simp [confirmResponseHandler]
    rw [hpe]
    simp [confirmRequests, hask]

/-- Witness for C6 at (write_file, /tmp/x) over an empty store. -/
theorem remember_controls_future_confirmation_witness :
    confirmRequests []
        (confirmResponseHandler [] st₀ "c1" true true
          (some "write_file") (some "/tmp/x")).1
        "write_file" "/tmp/x" "c2" "w" = [] ∧
    confirmRequests []
        (confirmResponseHandler [] st₀ "c1" true false
          (some "write_file") (some "/tmp/x")).1
        "write_file" "/tmp/x" "c2" "w" = [⟨"c2", "write_file", "w"⟩] :=
  remember_controls_future_confirmation [] [] st₀ "c1" "c2" "w"
    "write_file" "/tmp/x" (by decide) rfl

/-- C9: `agent:authorize-folder` is idempotent and monotone: the folder
is appended only when absent, existing entries are never removed or
reordered, and a second invocation with the same folder is the
identity. -/
theorem authorize_folder_idempotent_monotone (folders : List String)
    (p : String) :
    authorizeFolder (authorizeFolder folders p) p = authorizeFolder folders p ∧
    (p ∈ folders → authorizeFolder folders p = folders) ∧
    (p ∉ folders → authorizeFolder folders p = folders ++ [p]) := by
  refine ⟨?_, fun h => by simp [authorizeFolder, h],
    fun h => by simp [authorizeFolder, h]⟩
  by_cases h : p ∈ folders
  · simp [authorizeFolder, h]
  · simp [authorizeFolder, h]

/-- Witness for C9 on a concrete two-element store. -/
theorem authorize_folder_idempotent_monotone_witness :
    authorizeFolder (authorizeFolder ["a"] "b") "b" = authorizeFolder ["a"] "b" ∧
    authorizeFolder ["a"] "b" = ["a", "b"] ∧
    authorizeFolder ["a", "b"] "b" = ["a", "b"] :=
  ⟨(authorize_folder_idempotent_monotone ["a"] "b").1,
   (authorize_folder_idempotent_monotone ["a"] "b").2.2 (by decide),
   (authorize_folder_idempotent_monotone ["a", "b"] "b").2.1 (by decide)⟩

/-- C10: after `agent:set-working-dir`, the folder list starts with the
folder, contains it exactly once, keeps every other folder with its
exact multiplicity, and preserves the relative order of the remaining
entries. -/
theorem set_working_dir_spec (folders : List String) (p : String) :
    (setWorkingDir folders p).head? = some p ∧
    (setWorkingDir folders p).count p = 1 ∧
    (∀ q, q ≠ p → (setWorkingDir folders p).count q = folders.count q) ∧
    List.Sublist (setWorkingDir folders p).tail folders := by
  refine ⟨rfl, ?_, ?_, ?_⟩
  · have h0 : (folders.filter (fun f => f != p)).count p = 0 :=
      List.count_eq_zero.2 (fun hmem => by simp [List.mem_filter] at hmem)
    simp [setWorkingDir, List.count_cons_self, h0]
  · intro q hq
    have hq' : (fun f => f != p) q = true := by simpa using hq
    simp [setWorkingDir, List.count_cons, hq, List.count_filter hq']
  · exact List.filter_sublist folders

/-- Witness for C10 on a concrete store where the folder is already
present in second position. -/
theorem set_working_dir_spec_witness :
    (setWorkingDir ["a", "b"] "b").head? = some "b" ∧
    (setWorkingDir ["a", "b"] "b").count "b" = 1 ∧
    (setWorkingDir ["a", "b"] "b").count "a" = ["a", "b"].count "a" ∧
    List.Sublist (setWorkingDir ["a", "b"] "b").tail ["a", "b"] :=
  ⟨(set_working_dir_spec ["a", "b"] "b").1,
   (set_working_dir_spec ["a", "b"] "b").2.1,
   (set_working_dir_spec ["a", "b"] "b").2.2.1 "a" (by decide),
   (set_working_dir_spec ["a", "b"] "b").2.2.2⟩

end OpenCowork
